import Mathlib

/-!
Verification of the bookstore multi-agent simulation (`bookstore_bms.py`).

The Python program keeps a catalog of books (name, integer quantity, price),
registers two SWRL rules on an ontology, and runs a Mesa model in which
customer agents buy a randomly chosen book and employee agents restock any
book whose quantity dropped below 2.  Every tick the Mesa scheduler activates
all agents once in a random order.  We embed each of these pieces as a pure
Lean function and prove the behavioural properties claimed for them.
-/

/-- A book of the catalog: `Book(name)` with its functional data properties
`availableQuantity` (an `int` in the source) and `hasPrice` (a `float`,
embedded as `ℚ`; the program never computes with prices). -/
structure Book where
  name : String
  availableQuantity : Int
  hasPrice : ℚ
deriving DecidableEq, Repr

/-- The three books created at setup (lines 37-49 of the source):
`b1`,`b2`,`b3` with quantity 5 each and prices 12.5, 15.0, 9.99. -/
def initialBooks : List Book :=
  [⟨"b1", 5, 12.5⟩, ⟨"b2", 5, 15.0⟩, ⟨"b3", 5, 9.99⟩]

/-- Modelled from the spec: the single shared pseudo-random source
(the Python `random` module / mesa's model RNG, which are library code not
under `src/`).  A linear congruential generator over a 31-bit state; the
simulation consumes draws from it for the agent shuffle and the buyer's
book choice. -/
structure RNG where
  state : Nat
deriving DecidableEq, Repr

/-- One raw draw of the generator. -/
def RNG.next (g : RNG) : Nat × RNG :=
  let s := (g.state * 1103515245 + 12345) % 2147483648
  (s, ⟨s⟩)

/-- A draw reduced modulo `n`, giving a value in `[0, n)` for `n > 0`
(models `random.choice` index selection and `random.shuffle` draws). -/
def RNG.randNat (g : RNG) (n : Nat) : Nat × RNG :=
  let p := g.next
  (p.1 % n, p.2)

/-- `EmployeeAgent.step`'s per-book action (lines 96-97):
if `availableQuantity < 2` then add 3, else leave the book alone. -/
def restockBook (b : Book) : Book :=
  if b.availableQuantity < 2 then
    { b with availableQuantity := b.availableQuantity + 3 }
  else b

/-- The scheduler registers customer agents (uid `0..num_customers-1`) and
employee agents (uid `100..`); lines 107-115 of the source. -/
inductive AgentK where
  | customer (uid : Nat)
  | employee (uid : Nat)
deriving DecidableEq, Repr

/-- The mutable state of the run: the shared book catalog, the ontology's
`purchases` relation (declared on lines 24-25 and never asserted by any
code path), and the per-customer local purchase logs
(`CustomerAgent.purchased`, keyed by `unique_id`). -/
structure ModelState where
  books : List Book
  factPurchases : List (Nat × String)
  purchased : List (Nat × List String)
deriving DecidableEq, Repr

/-- Append a book name to customer `uid`'s local purchase log
(`self.purchased.append(book.name)`, line 88). -/
def recordPurchase (logs : List (Nat × List String)) (uid : Nat) (nm : String) :
    List (Nat × List String) :=
  logs.map fun p => if p.1 = uid then (p.1, p.2 ++ [nm]) else p

/-- `CustomerAgent.step` (lines 84-88) once the random draw has produced
index `i` into the shared catalog: if the chosen book has positive quantity,
decrement that quantity and append the book's name to the customer's own
log; otherwise do nothing. -/
def customerStep (st : ModelState) (uid : Nat) (i : Nat) : ModelState :=
  match st.books[i]? with
  | none => st
  | some b =>
    if 0 < b.availableQuantity then
      { st with
          books := st.books.set i
            { b with availableQuantity := b.availableQuantity - 1 },
          purchased := recordPurchase st.purchased uid b.name }
    else st

/-- `EmployeeAgent.step` (lines 94-97): walk the whole catalog applying
`restockBook` to every book. -/
def employeeStep (st : ModelState) : ModelState :=
  { st with books := st.books.map restockBook }

/-- One agent activation.  A customer draws a random index from the shared
generator (`random.choice(self.model.books)`) and runs `customerStep`; an
employee runs `employeeStep` and consumes no randomness. -/
def agentStep (st : ModelState) (g : RNG) : AgentK → ModelState × RNG
  | .customer uid =>
    let p := g.randNat st.books.length
    (customerStep st uid p.1, p.2)
  | .employee _ => (employeeStep st, g)

/-- Modelled from the spec: mesa's `RandomActivation` shuffle (library code
not under `src/`), which "draws a permutation of all registered agents
uniformly at random".  Draws an index, moves that agent to the front and
recurses on the rest; the fuel argument is the list length. -/
def shuffleAux : Nat → RNG → List AgentK → List AgentK × RNG
  | 0, g, _ => ([], g)
  | n + 1, g, l =>
    let p := g.randNat l.length
    match l[p.1]? with
    | none => (l, p.2)
    | some x =>
      let q := shuffleAux n p.2 (l.erase x)
      (x :: q.1, q.2)

/-- Shuffle a list of agents using the shared generator. -/
def shuffle (g : RNG) (l : List AgentK) : List AgentK × RNG :=
  shuffleAux l.length g l

/-- One scheduler tick (`BookstoreModel.step` → `RandomActivation.step`):
draw a random order of all registered agents, then activate each exactly
once in that order, sequentially.  Also returns the activation order as a
trace. -/
def tick (agents : List AgentK) (st : ModelState) (g : RNG) :
    ModelState × RNG × List AgentK :=
  let o := shuffle g agents
  let r := o.1.foldl (fun p a => agentStep p.1 p.2 a) (st, o.2)
  (r.1, r.2, o.1)

/-- Run `n` scheduler ticks (the `for i in range(15): model.step()` loop,
lines 126-128, generalized to a caller-supplied tick count), concatenating
the activation traces. -/
def run (agents : List AgentK) : Nat → ModelState → RNG →
    ModelState × RNG × List AgentK
  | 0, st, g => (st, g, [])
  | n + 1, st, g =>
    let t := tick agents st g
    let r := run agents n t.1 t.2.1
    (r.1, r.2.1, t.2.2 ++ r.2.2)

/-- The agents registered by `BookstoreModel.__init__` (lines 107-115):
customers `0..nc-1` then employees `100..100+ne-1`. -/
def mkAgents (nc ne : Nat) : List AgentK :=
  (List.range nc).map AgentK.customer ++
    (List.range ne).map (fun i => AgentK.employee (i + 100))

/-- Initial model state for a given catalog and customer count: every
customer starts with an empty local log and the ontology `purchases`
relation is empty. -/
def initState (catalog : List Book) (nc : Nat) : ModelState :=
  { books := catalog
    factPurchases := []
    purchased := (List.range nc).map fun i => (i, []) }

/-- A whole simulation run as a function of its setup parameters and the
seed of the shared pseudo-random source; returns the final catalog and the
per-customer purchase logs (the run output of §6 of the spec). -/
def runSim (catalog : List Book) (nc ne ticks seed : Nat) :
    List Book × List (Nat × List String) :=
  let r := run (mkAgents nc ne) ticks (initState catalog nc) ⟨seed⟩
  (r.1.books, r.1.purchased)

/-- Decrement `availableQuantity` of every book named `nm`: the action
`availableQuantity(?b, ?q - 1)` of the SWRL purchase rule (lines 57-60),
applied to one binding. -/
def decBook (bs : List Book) (nm : String) : List Book :=
  bs.map fun b =>
    if b.name = nm then { b with availableQuantity := b.availableQuantity - 1 }
    else b

/-- Modelled from the spec: one evaluation pass of the Rule Engine's
purchase rule (the SWRL rule of lines 57-60 is executed by the owlready2
reasoner, library code not under `src/`).  Per §4.2 the rule fires once per
purchase-log entry `(c, b)`, each firing updating
`availableQuantity(b) := availableQuantity(b) - 1`. -/
def purchaseRulePass (purchases : List (Nat × String)) (bs : List Book) :
    List Book :=
  purchases.foldl (fun acc e => decBook acc e.2) bs

/-- All books of a catalog have non-negative quantity. -/
def allQtyNonneg (bs : List Book) : Bool :=
  bs.all fun b => decide (0 ≤ b.availableQuantity)

/-- The name/price view of a catalog, used to state frame conditions:
everything except `availableQuantity`. -/
def priceView (bs : List Book) : List (String × ℚ) :=
  bs.map fun b => (b.name, b.hasPrice)

/-- A registered rule, semantically: a transformation of the catalog that
may read the `purchases` relation (the two shipped rules are
`purchaseRulePass` and the restock sweep). -/
def FactRule : Type :=
  List (Nat × String) → List Book → List Book

/-- Modelled from the spec: rule registration (the `try: Imp().set_as_rule
... except` blocks of lines 55-74; the rule parser itself is owlready2
library code not under `src/`).  A candidate is a rule name together with
the parser's outcome, `none` meaning the pattern or guard was unparseable.
A malformed candidate is skipped and a log line recorded; a well-formed one
is appended to the registered rules. -/
def regStep (acc : List FactRule × List String) (c : String × Option FactRule) :
    List FactRule × List String :=
  match c.2 with
  | some r => (acc.1 ++ [r], acc.2)
  | none => (acc.1, acc.2 ++ ["[SWRL] Could not add rule: " ++ c.1])

/-- Register all candidate rules in order, starting from no rules and an
empty log; returns (registered rules, log). -/
def registerRules (cands : List (String × Option FactRule)) :
    List FactRule × List String :=
  cands.foldl regStep ([], [])

/-- The whole program: register the candidate rules, then run the
simulation.  In the source the registered rules are never invoked during
the ticks (only the terminal reasoner would use them), so the run depends
only on the simulation parameters. -/
def mainProgram (cands : List (String × Option FactRule))
    (catalog : List Book) (nc ne ticks seed : Nat) :
    (List FactRule × List String) × (List Book × List (Nat × List String)) :=
  (registerRules cands, runSim catalog nc ne ticks seed)

/-- Modelled from the spec: the terminal consistency pass (the
`try: sync_reasoner() except` block of lines 161-166; the reasoner is
library code not under `src/`).  `validator` is the underlying validation
mechanism, which may fail with a message.  The already-computed run result
is returned unchanged in either case, together with the status line the
program prints. -/
def applyReasoner (validator : List Book → Except String Unit)
    (final : List Book × List (Nat × List String)) :
    (List Book × List (Nat × List String)) × String :=
  match validator final.1 with
  | Except.ok _ => (final, "[Reasoner] Reasoner finished.")
  | Except.error e => (final, "[Reasoner] Reasoner could not run: " ++ e)

/-! ### Helper lemmas -/

theorem allQtyNonneg_iff (bs : List Book) :
    allQtyNonneg bs = true ↔ ∀ b ∈ bs, 0 ≤ b.availableQuantity := by
  simp [allQtyNonneg]

theorem restockBook_name (b : Book) : (restockBook b).name = b.name := by
  unfold restockBook
  split <;> rfl

theorem restockBook_price (b : Book) : (restockBook b).hasPrice = b.hasPrice := by
  unfold restockBook
  split <;> rfl

theorem restockBook_qty_nonneg (b : Book) (h : 0 ≤ b.availableQuantity) :
    0 ≤ (restockBook b).availableQuantity := by
  unfold restockBook
  split
  · show 0 ≤ b.availableQuantity + 3
    omega
  · exact h

theorem customerStep_factPurchases (st : ModelState) (uid i : Nat) :
    (customerStep st uid i).factPurchases = st.factPurchases := by
  cases hb : st.books[i]? with
  | none => simp [customerStep, hb]
  | some b =>
    by_cases hq : 0 < b.availableQuantity <;> simp [customerStep, hb, hq]

theorem agentStep_factPurchases (st : ModelState) (g : RNG) (a : AgentK) :
    (agentStep st g a).1.factPurchases = st.factPurchases := by
  cases a with
  | customer uid => exact customerStep_factPurchases st uid _
  | employee e => rfl

theorem foldl_agentStep_factPurchases (order : List AgentK) (st : ModelState)
    (g : RNG) :
    ((order.foldl (fun p a => agentStep p.1 p.2 a) (st, g)).1).factPurchases
      = st.factPurchases := by
  induction order generalizing st g with
  | nil => rfl
  | cons a as ih =>
    simp only [List.foldl_cons]
    exact (ih (agentStep st g a).1 (agentStep st g a).2).trans
      (agentStep_factPurchases st g a)

theorem tick_factPurchases (agents : List AgentK) (st : ModelState) (g : RNG) :
    (tick agents st g).1.factPurchases = st.factPurchases :=
  foldl_agentStep_factPurchases (shuffle g agents).1 st (shuffle g agents).2

theorem run_factPurchases (agents : List AgentK) (n : Nat) (st : ModelState)
    (g : RNG) :
    (run agents n st g).1.factPurchases = st.factPurchases := by
  induction n generalizing st g with
  | zero => rfl
  | succ n ih =>
    exact (ih (tick agents st g).1 (tick agents st g).2.1).trans
      (tick_factPurchases agents st g)

theorem customerStep_nonneg (st : ModelState) (uid i : Nat)
    (h : allQtyNonneg st.books = true) :
    allQtyNonneg (customerStep st uid i).books = true := by
  rw [allQtyNonneg_iff] at h ⊢
  cases hb : st.books[i]? with
  | none => simpa [customerStep, hb] using h
  | some b =>
    by_cases hq : 0 < b.availableQuantity
    · simp only [customerStep, hb, if_pos hq]
      intro x hx
      rcases List.mem_or_eq_of_mem_set hx with hmem | rfl
      · exact h x hmem
      · show 0 ≤ b.availableQuantity - 1
        omega
    · simpa [customerStep, hb, hq] using h

theorem employeeStep_nonneg (st : ModelState)
    (h : allQtyNonneg st.books = true) :
    allQtyNonneg (employeeStep st).books = true := by
  rw [allQtyNonneg_iff] at h ⊢
  intro x hx
  have hx' : x ∈ st.books.map restockBook := hx
  simp only [List.mem_map] at hx'
  obtain ⟨y, hy, rfl⟩ := hx'
  exact restockBook_qty_nonneg y (h y hy)

theorem agentStep_nonneg (st : ModelState) (g : RNG) (a : AgentK)
    (h : allQtyNonneg st.books = true) :
    allQtyNonneg (agentStep st g a).1.books = true := by
  cases a with
  | customer uid => exact customerStep_nonneg st uid _ h
  | employee e => exact employeeStep_nonneg st h

theorem foldl_agentStep_nonneg (order : List AgentK) (st : ModelState) (g : RNG)
    (h : allQtyNonneg st.books = true) :
    allQtyNonneg ((order.foldl (fun p a => agentStep p.1 p.2 a) (st, g)).1).books
      = true := by
  induction order generalizing st g with
  | nil => exact h
  | cons a as ih =>
    simp only [List.foldl_cons]
    exact ih (agentStep st g a).1 (agentStep st g a).2 (agentStep_nonneg st g a h)

theorem tick_nonneg (agents : List AgentK) (st : ModelState) (g : RNG)
    (h : allQtyNonneg st.books = true) :
    allQtyNonneg (tick agents st g).1.books = true :=
  foldl_agentStep_nonneg (shuffle g agents).1 st (shuffle g agents).2 h

theorem run_nonneg (agents : List AgentK) (n : Nat) (st : ModelState) (g : RNG)
    (h : allQtyNonneg st.books = true) :
    allQtyNonneg ((run agents n st g).1).books = true := by
  induction n generalizing st g with
  | zero => exact h
  | succ n ih =>
    exact ih (tick agents st g).1 (tick agents st g).2.1
      (tick_nonneg agents st g h)

theorem priceView_set (bs : List Book) (i : Nat) (b b' : Book)
    (hb : bs[i]? = some b) (hn : b'.name = b.name)
    (hp : b'.hasPrice = b.hasPrice) :
    priceView (bs.set i b') = priceView bs := by
  apply List.ext_getElem?
  intro n
  by_cases hin : i = n
  · subst hin
    have hlt : i < bs.length := (List.getElem?_eq_some.mp hb).choose
    show (List.map (fun b => (b.name, b.hasPrice)) (bs.set i b'))[i]?
        = (List.map (fun b => (b.name, b.hasPrice)) bs)[i]?
    rw [List.getElem?_map, List.getElem?_map,
      List.getElem?_set_eq_of_lt b' hlt, hb]
    simp [hn, hp]
  · simp [priceView, List.getElem?_map, List.getElem?_set_ne hin]

theorem customerStep_priceView (st : ModelState) (uid i : Nat) :
    priceView (customerStep st uid i).books = priceView st.books := by
  cases hb : st.books[i]? with
  | none => simp [customerStep, hb]
  | some b =>
    by_cases hq : 0 < b.availableQuantity
    · simp only [customerStep, hb, if_pos hq]
      exact priceView_set st.books i b _ hb rfl rfl
    · simp [customerStep, hb, hq]

theorem employeeStep_priceView (st : ModelState) :
    priceView (employeeStep st).books = priceView st.books := by
  show priceView (st.books.map restockBook) = priceView st.books
  unfold priceView
  rw [List.map_map]
  apply List.map_congr_left
  intro a _
  simp [Function.comp, restockBook_name, restockBook_price]

theorem agentStep_priceView (st : ModelState) (g : RNG) (a : AgentK) :
    priceView (agentStep st g a).1.books = priceView st.books := by
  cases a with
  | customer uid => exact customerStep_priceView st uid _
  | employee e => exact employeeStep_priceView st

theorem foldl_agentStep_priceView (order : List AgentK) (st : ModelState)
    (g : RNG) :
    priceView ((order.foldl (fun p a => agentStep p.1 p.2 a) (st, g)).1).books
      = priceView st.books := by
  induction order generalizing st g with
  | nil => rfl
  | cons a as ih =>
    simp only [List.foldl_cons]
    exact (ih (agentStep st g a).1 (agentStep st g a).2).trans
      (agentStep_priceView st g a)

theorem tick_priceView (agents : List AgentK) (st : ModelState) (g : RNG) :
    priceView (tick agents st g).1.books = priceView st.books :=
  foldl_agentStep_priceView (shuffle g agents).1 st (shuffle g agents).2

theorem run_priceView (agents : List AgentK) (n : Nat) (st : ModelState)
    (g : RNG) :
    priceView ((run agents n st g).1).books = priceView st.books := by
  induction n generalizing st g with
  | zero => rfl
  | succ n ih =>
    exact (ih (tick agents st g).1 (tick agents st g).2.1).trans
      (tick_priceView agents st g)

theorem shuffleAux_perm :
    ∀ (n : Nat) (g : RNG) (l : List AgentK), l.length = n →
      ((shuffleAux n g l).1).Perm l := by
  intro n
  induction n with
  | zero =>
    intro g l hl
    have hnil : l = [] := List.eq_nil_of_length_eq_zero hl
    subst hnil
    exact List.Perm.refl _
  | succ n ih =>
    intro g l hl
    have hpos : 0 < l.length := by omega
    have hidx : (g.randNat l.length).1 < l.length := Nat.mod_lt _ hpos
    have hx : l[(g.randNat l.length).1]?
        = some (l.get ⟨(g.randNat l.length).1, hidx⟩) := by
      rw [List.getElem?_eq_getElem hidx]
      rfl
    have hmem : l.get ⟨(g.randNat l.length).1, hidx⟩ ∈ l := List.get_mem l _ _
    have hlen : (l.erase (l.get ⟨(g.randNat l.length).1, hidx⟩)).length = n := by
      rw [List.length_erase_of_mem hmem]
      omega
    simp only [shuffleAux, hx]
    exact ((ih _ _ hlen).cons _).trans (List.perm_cons_erase hmem).symm

theorem shuffle_perm (g : RNG) (l : List AgentK) : ((shuffle g l).1).Perm l :=
  shuffleAux_perm l.length g l rfl

theorem tick_trace_perm (agents : List AgentK) (st : ModelState) (g : RNG) :
    ((tick agents st g).2.2).Perm agents :=
  shuffle_perm g agents

theorem run_trace_count (agents : List AgentK) (a : AgentK) (n : Nat)
    (st : ModelState) (g : RNG) :
    ((run agents n st g).2.2).count a = n * agents.count a := by
  induction n generalizing st g with
  | zero => simp [run]
  | succ n ih =>
    show ((tick agents st g).2.2
        ++ (run agents n (tick agents st g).1 (tick agents st g).2.1).2.2).count a
      = (n + 1) * agents.count a
    rw [List.count_append, (tick_trace_perm agents st g).count_eq,
      ih (tick agents st g).1 (tick agents st g).2.1]
    ring

theorem decBook_getElem? (bs : List Book) (nm : String) (i : Nat) :
    (decBook bs nm)[i]? = bs[i]?.map (fun b =>
      if b.name = nm then
        { b with availableQuantity := b.availableQuantity - 1 }
      else b) :=
  List.getElem?_map _ bs i

theorem purchaseRulePass_getElem? (es : List (Nat × String)) :
    ∀ (bs : List Book) (i : Nat) (b : Book), bs[i]? = some b →
      (purchaseRulePass es bs)[i]?
        = some { b with availableQuantity :=
            b.availableQuantity
              - (es.countP (fun e => decide (e.2 = b.name)) : Int) } := by
  induction es with
  | nil =>
    intro bs i b hb
    obtain ⟨nm, q, pr⟩ := b
    simpa [purchaseRulePass] using hb
  | cons e es ih =>
    intro bs i b hb
    obtain ⟨nm, q, pr⟩ := b
    have hstep : purchaseRulePass (e :: es) bs
        = purchaseRulePass es (decBook bs e.2) := rfl
    rw [hstep]
    by_cases hc : nm = e.2
    · have hb' : (decBook bs e.2)[i]? = some ⟨nm, q - 1, pr⟩ := by
        rw [decBook_getElem?, hb]
        simp [hc]
      rw [ih _ _ _ hb']
      have hpe : decide (e.2 = (⟨nm, q, pr⟩ : Book).name) = true := by
        simp [hc]
      simp only [List.countP_cons, hpe, if_true]
      simp only [Option.some.injEq, Book.mk.injEq, true_and, and_true]
      push_cast
      ring
    · have hb' : (decBook bs e.2)[i]? = some ⟨nm, q, pr⟩ := by
        rw [decBook_getElem?, hb]
        simp [hc]
      rw [ih _ _ _ hb']
      have hpe : decide (e.2 = (⟨nm, q, pr⟩ : Book).name) = false := by
        simp
        intro hcontra
        exact hc hcontra.symm
      simp [List.countP_cons, hpe]

theorem foldl_regStep (cands : List (String × Option FactRule)) :
    ∀ (rs : List FactRule) (log : List String),
      cands.foldl regStep (rs, log)
        = (rs ++ cands.filterMap (fun c => c.2),
           log ++ (cands.filter (fun c => c.2.isNone)).map
             (fun c => "[SWRL] Could not add rule: " ++ c.1)) := by
  induction cands with
  | nil => intro rs log; simp
  | cons c cs ih =>
    intro rs log
    cases hc : c.2 with
    | some r =>
      simp only [List.foldl_cons]
      rw [show regStep (rs, log) c = (rs ++ [r], log) from by
        simp [regStep, hc]]
      rw [ih]
      simp [List.filterMap_cons, List.filter_cons, hc, List.append_assoc]
    | none =>
      simp only [List.foldl_cons]
      rw [show regStep (rs, log) c
          = (rs, log ++ ["[SWRL] Could not add rule: " ++ c.1]) from by
        simp [regStep, hc]]
      rw [ih]
      simp [List.filterMap_cons, List.filter_cons, hc, List.append_assoc]

/-! ### The claims -/

/-- C1: For every Buyer act the Buyer selects the Book at the index drawn
from the shared random source; if that Book's `availableQuantity > 0` the
act decrements that quantity by exactly 1 and appends that Book's id to the
Buyer's own purchase log, and if the Book's `availableQuantity = 0` the act
changes no quantity and records no purchase (the fact store and the Buyer's
log are unchanged for that tick). -/
theorem buyer_act_spec (st : ModelState) (g : RNG) (uid : Nat) (b : Book)
    (hb : st.books[(g.randNat st.books.length).1]? = some b) :
    (0 < b.availableQuantity →
      agentStep st g (AgentK.customer uid)
        = ({ st with
              books := st.books.set (g.randNat st.books.length).1
                { b with availableQuantity := b.availableQuantity - 1 },
              purchased := recordPurchase st.purchased uid b.name },
            (g.randNat st.books.length).2))
    ∧ (b.availableQuantity = 0 →
      agentStep st g (AgentK.customer uid)
        = (st, (g.randNat st.books.length).2)) := by
  constructor
  · intro hpos
    show (customerStep st uid (g.randNat st.books.length).1, _) = _
    simp only [customerStep, hb, if_pos hpos]
  · intro h0
    show (customerStep st uid (g.randNat st.books.length).1, _) = _
    have hneg : ¬ 0 < b.availableQuantity := by omega
    simp only [customerStep, hb, if_neg hneg]

/-- Witness for C1: with seed 0 the buyer draws index 0, i.e. book `b1`
with quantity 5 > 0, so the act decrements `b1` and appends `"b1"` to the
buyer's own log. -/
theorem buyer_act_spec_witness :
    agentStep (initState initialBooks 1) ⟨0⟩ (AgentK.customer 0)
      = ({ initState initialBooks 1 with
            books := (initState initialBooks 1).books.set
              ((RNG.mk 0).randNat (initState initialBooks 1).books.length).1
              { (⟨"b1", 5, 12.5⟩ : Book) with
                  availableQuantity :=
                    (⟨"b1", 5, 12.5⟩ : Book).availableQuantity - 1 },
            purchased :=
              recordPurchase (initState initialBooks 1).purchased 0 "b1" },
          ((RNG.mk 0).randNat (initState initialBooks 1).books.length).2) :=
  (buyer_act_spec (initState initialBooks 1) ⟨0⟩ 0 ⟨"b1", 5, 12.5⟩ rfl).1
    (by decide)

/-- C2: For every Restocker act and every Book: if the Book's quantity `q`
satisfies `q < 2` then after the act its quantity equals `q + 3` (applied
exactly once per act), and running the same Restocker again immediately
afterwards is a no-op on that Book whenever its quantity is then `≥ 2`. -/
theorem restocker_act_spec (st : ModelState) (g g' : RNG) (e i : Nat)
    (b : Book) (hb : st.books[i]? = some b) :
    (b.availableQuantity < 2 →
      (agentStep st g (AgentK.employee e)).1.books[i]?
        = some { b with availableQuantity := b.availableQuantity + 3 })
    ∧ (∀ b', (agentStep st g (AgentK.employee e)).1.books[i]? = some b' →
        2 ≤ b'.availableQuantity →
        (agentStep (agentStep st g (AgentK.employee e)).1 g'
            (AgentK.employee e)).1.books[i]? = some b') := by
  have hmap : (agentStep st g (AgentK.employee e)).1.books[i]?
      = some (restockBook b) := by
    show (st.books.map restockBook)[i]? = some (restockBook b)
    rw [List.getElem?_map, hb]
    rfl
  constructor
  · intro hlt
    rw [hmap]
    unfold restockBook
    rw [if_pos hlt]
  · intro b' hb' hge
    have hmap2 : (agentStep (agentStep st g (AgentK.employee e)).1 g'
        (AgentK.employee e)).1.books[i]? = some (restockBook b') := by
      show ((agentStep st g (AgentK.employee e)).1.books.map restockBook)[i]?
          = some (restockBook b')
      rw [List.getElem?_map, hb']
      rfl
    rw [hmap2]
    unfold restockBook
    rw [if_neg (by omega)]

/-- Witness for C2: a catalog whose only book has quantity 1 < 2; one
restocker act raises it to 4, and a second restocker act leaves it at 4. -/
theorem restocker_act_spec_witness :
    (agentStep ⟨[⟨"b1", 1, 12.5⟩], [], []⟩ ⟨0⟩
        (AgentK.employee 100)).1.books[0]? = some ⟨"b1", 1 + 3, 12.5⟩
    ∧ (agentStep (agentStep ⟨[⟨"b1", 1, 12.5⟩], [], []⟩ ⟨0⟩
        (AgentK.employee 100)).1 ⟨0⟩
        (AgentK.employee 100)).1.books[0]? = some ⟨"b1", 1 + 3, 12.5⟩ := by
  have h := restocker_act_spec ⟨[⟨"b1", 1, 12.5⟩], [], []⟩ ⟨0⟩ ⟨0⟩ 100 0
    ⟨"b1", 1, 12.5⟩ rfl
  exact ⟨h.1 (by decide), h.2 ⟨"b1", 1 + 3, 12.5⟩ (h.1 (by decide)) (by decide)⟩

/-- C3: One evaluation pass of the Rule Engine's purchase rule, which fires
once per purchase-log entry, decrements `availableQuantity(b)` by exactly
the number of entries naming `b` in the purchase log; in particular, if the
same `(c, b)` pair appears twice in the log the rule fires twice,
decrementing twice. -/
theorem purchase_rule_cardinality (purchases : List (Nat × String))
    (bs : List Book) (i : Nat) (b : Book) (hb : bs[i]? = some b) :
    ((purchaseRulePass purchases bs)[i]?
        = some { b with availableQuantity :=
            b.availableQuantity
              - (purchases.countP (fun e => decide (e.2 = b.name)) : Int) })
    ∧ ∀ c : Nat, (purchaseRulePass [(c, b.name), (c, b.name)] bs)[i]?
        = some { b with availableQuantity := b.availableQuantity - 2 } := by
  constructor
  · exact purchaseRulePass_getElem? purchases bs i b hb
  · intro c
    have h := purchaseRulePass_getElem? [(c, b.name), (c, b.name)] bs i b hb
    have hcount : ([(c, b.name), (c, b.name)] : List (Nat × String)).countP
        (fun e => decide (e.2 = b.name)) = 2 := by
      simp [List.countP_cons]
    rw [h, hcount]
    norm_num

/-- Witness for C3: a log holding the pair `(0, "b1")` twice decrements
`b1`'s quantity from 5 to 3 in one pass. -/
theorem purchase_rule_cardinality_witness :
    (purchaseRulePass [(0, "b1"), (0, "b1")] initialBooks)[0]?
      = some { (⟨"b1", 5, 12.5⟩ : Book) with
          availableQuantity := (⟨"b1", 5, 12.5⟩ : Book).availableQuantity - 2 } :=
  (purchase_rule_cardinality [(0, "b1"), (0, "b1")] initialBooks 0
    ⟨"b1", 5, 12.5⟩ rfl).2 0

/-- C4: Each scheduler step advances exactly one tick: it draws a random
permutation of all registered agents and invokes each agent's act exactly
once, in that order, sequentially; a run of `n` ticks activates every agent
exactly `n` times (once per occurrence in the agent list per tick), with no
tick skipped or repeated. -/
theorem scheduler_one_tick_per_step (agents : List AgentK) (st : ModelState)
    (g : RNG) :
    ((tick agents st g).2.2).Perm agents
    ∧ ∀ (n : Nat) (a : AgentK),
        ((run agents n st g).2.2).count a = n * agents.count a :=
  ⟨tick_trace_perm agents st g, fun n a => run_trace_count agents a n st g⟩

/-- C5: After setup every Book has `availableQuantity ≥ 0` and `price ≥ 0`,
and non-negativity of all quantities is preserved by every agent act and by
every whole run — in particular by the shipped 8-buyer, 2-restocker,
15-tick run. -/
theorem setup_and_nonneg_invariant :
    (∀ b ∈ initialBooks, 0 ≤ b.availableQuantity ∧ 0 ≤ b.hasPrice)
    ∧ (∀ (st : ModelState) (g : RNG) (a : AgentK),
        allQtyNonneg st.books = true →
        allQtyNonneg (agentStep st g a).1.books = true)
    ∧ (∀ (agents : List AgentK) (n : Nat) (st : ModelState) (g : RNG),
        allQtyNonneg st.books = true →
        allQtyNonneg ((run agents n st g).1).books = true) := by
  refine ⟨?_, agentStep_nonneg, run_nonneg⟩
  intro b hb
  fin_cases hb <;> constructor <;> norm_num [initialBooks]

/-- Witness for C5: the shipped configuration (3 books with quantity 5,
8 buyers, 2 restockers, 15 ticks, seed 42) ends with every quantity
non-negative. -/
theorem setup_and_nonneg_invariant_witness :
    allQtyNonneg
        ((run (mkAgents 8 2) 15 (initState initialBooks 8) ⟨42⟩).1).books
      = true :=
  setup_and_nonneg_invariant.2.2 (mkAgents 8 2) 15 (initState initialBooks 8)
    ⟨42⟩ (by decide)

/-- C6: Given a fixed seed for the shared pseudo-random source, two runs
with identical setup parameters (initial catalog, numbers of Buyers and
Restockers, tick count) produce identical final Book catalogs and identical
per-Customer purchase logs. -/
theorem run_determinism (catalog catalog' : List Book)
    (nc ne ticks seed nc' ne' ticks' seed' : Nat)
    (h : catalog = catalog' ∧ nc = nc' ∧ ne = ne' ∧ ticks = ticks'
      ∧ seed = seed') :
    runSim catalog nc ne ticks seed = runSim catalog' nc' ne' ticks' seed' := by
  obtain ⟨h1, h2, h3, h4, h5⟩ := h
  rw [h1, h2, h3, h4, h5]

/-- Witness for C6: two copies of the shipped run with seed 7 agree. -/
theorem run_determinism_witness :
    runSim initialBooks 8 2 15 7 = runSim initialBooks 8 2 15 7 :=
  run_determinism initialBooks initialBooks 8 2 15 7 8 2 15 7
    ⟨rfl, rfl, rfl, rfl, rfl⟩

/-- C7: Every Book's price (and id) is immutable: every agent act and every
whole run leaves the name/price view of the catalog unchanged; only
`availableQuantity` and the Buyers' purchase logs are ever modified. -/
theorem prices_immutable (agents : List AgentK) (n : Nat) (st : ModelState)
    (g : RNG) :
    (∀ (g' : RNG) (a : AgentK),
        priceView (agentStep st g' a).1.books = priceView st.books)
    ∧ priceView ((run agents n st g).1).books = priceView st.books :=
  ⟨fun g' a => agentStep_priceView st g' a, run_priceView agents n st g⟩

/-- C8: A malformed rule is rejected at registration time and logged
(exactly one log line per malformed candidate), the well-formed rules are
all registered in order with no partial rule, and the simulation result is
unaffected by the candidate rules altogether. -/
theorem rule_registration_nonfatal (cands : List (String × Option FactRule)) :
    ((registerRules cands).1 = cands.filterMap (fun c => c.2))
    ∧ ((registerRules cands).2
        = (cands.filter (fun c => c.2.isNone)).map
            (fun c => "[SWRL] Could not add rule: " ++ c.1))
    ∧ ∀ (cands' : List (String × Option FactRule)) (catalog : List Book)
        (nc ne ticks seed : Nat),
        (mainProgram cands catalog nc ne ticks seed).2
          = (mainProgram cands' catalog nc ne ticks seed).2 := by
  have h := foldl_regStep cands [] []
  refine ⟨?_, ?_, fun _ _ _ _ _ _ => rfl⟩
  · show (cands.foldl regStep ([], [])).1 = _
    rw [h]
    exact List.nil_append _
  · show (cands.foldl regStep ([], [])).2 = _
    rw [h]
    exact List.nil_append _

/-- C9: The terminal consistency pass is best-effort: whatever the
underlying validation mechanism does, the already-computed run result is
returned unchanged; a failure is reported as a logged status line and a
success as the finished line. -/
theorem reasoner_best_effort (validator : List Book → Except String Unit)
    (final : List Book × List (Nat × List String)) :
    ((applyReasoner validator final).1 = final)
    ∧ (∀ e : String, validator final.1 = Except.error e →
        (applyReasoner validator final).2
          = "[Reasoner] Reasoner could not run: " ++ e)
    ∧ (validator final.1 = Except.ok () →
        (applyReasoner validator final).2
          = "[Reasoner] Reasoner finished.") := by
  refine ⟨?_, ?_, ?_⟩
  · unfold applyReasoner
    cases validator final.1 <;> rfl
  · intro e he
    unfold applyReasoner
    rw [he]
  · intro hok
    unfold applyReasoner
    rw [hok]

/-- Witness for C9: a validator that always fails (e.g. no Java runtime for
the reasoner) still returns the run result unchanged and logs the
failure. -/
theorem reasoner_best_effort_witness :
    (applyReasoner (fun _ => Except.error "Java error")
        (initialBooks, [])).1 = (initialBooks, [])
    ∧ (applyReasoner (fun _ => Except.error "Java error")
        (initialBooks, [])).2
      = "[Reasoner] Reasoner could not run: " ++ "Java error" :=
  ⟨(reasoner_best_effort (fun _ => Except.error "Java error")
      (initialBooks, [])).1,
   (reasoner_best_effort (fun _ => Except.error "Java error")
      (initialBooks, [])).2.1 "Java error" rfl⟩

/-- C10: The fact store's `purchases` relation is never asserted during a
run — it stays exactly as it started — so when it starts empty (as in
setup) the registered purchase rule has no satisfying bindings on the final
state and cannot decrement any Book's quantity. -/
theorem purchases_relation_never_asserted (agents : List AgentK) (n : Nat)
    (st : ModelState) (g : RNG) :
    ((run agents n st g).1.factPurchases = st.factPurchases)
    ∧ (st.factPurchases = [] →
        purchaseRulePass (run agents n st g).1.factPurchases
            ((run agents n st g).1.books)
          = (run agents n st g).1.books) := by
  refine ⟨run_factPurchases agents n st g, ?_⟩
  intro hnil
  rw [run_factPurchases agents n st g, hnil]
  rfl

/-- Witness for C10: after a 3-tick run of 2 buyers and 1 restocker the
`purchases` relation is still empty and the purchase rule is a no-op on the
final catalog. -/
theorem purchases_relation_never_asserted_witness :
    ((run (mkAgents 2 1) 3 (initState initialBooks 2) ⟨5⟩).1.factPurchases
        = (initState initialBooks 2).factPurchases)
    ∧ purchaseRulePass
        (run (mkAgents 2 1) 3 (initState initialBooks 2) ⟨5⟩).1.factPurchases
        ((run (mkAgents 2 1) 3 (initState initialBooks 2) ⟨5⟩).1.books)
      = (run (mkAgents 2 1) 3 (initState initialBooks 2) ⟨5⟩).1.books := by
  have h := purchases_relation_never_asserted (mkAgents 2 1) 3
    (initState initialBooks 2) ⟨5⟩
  exact ⟨h.1, h.2 rfl⟩
